import Mathlib

/-!
Verification of the efi PIX client library (Go) against its natural-language
specification.  The Go source is shallowly embedded: pure helpers
(`decodeJWT`, `checkToken`, `authorization`, base64 and JSON codecs) become
Lean functions on `List Char` / `Int`; the effectful operations (`OAuth`,
`Credentials.NewClient`, `Webhook.Delete`) become pure functions over an
explicit environment record capturing the outcome of each external step
(certificate load, URL join, request construction, network call, body read)
and over the process-wide mutable state they read and write (`Client`,
`EFI_BASE_URL`, `Authorization`).  Machine integers are modelled as `Int`;
time instants are modelled as integer nanoseconds since the epoch, matching
Go's `time.Time` comparison granularity.
-/

/-! ### Splitting, as `strings.Split` with a one-character separator -/

def splitOnChar (sep : Char) : List Char → List (List Char)
  | [] => [[]]
  | c :: rest =>
    if c = sep then [] :: splitOnChar sep rest
    else
      match splitOnChar sep rest with
      | [] => [[c]]
      | p :: ps => (c :: p) :: ps

theorem splitOnChar_ne_nil (sep : Char) (l : List Char) : splitOnChar sep l ≠ [] := by
  induction l with
  | nil => simp [splitOnChar]
  | cons c rest ih =>
    simp only [splitOnChar]
    split
    · simp
    · split
      · simp
      · simp

theorem splitOnChar_nosep (sep : Char) (l : List Char) (h : sep ∉ l) :
    splitOnChar sep l = [l] := by
  induction l with
  | nil => rfl
  | cons c rest ih =>
    simp only [List.mem_cons, not_or] at h
    simp only [splitOnChar]
    rw [if_neg (fun hc => h.1 hc.symm), ih h.2]

theorem splitOnChar_append (sep : Char) (a r : List Char) (h : sep ∉ a) :
    splitOnChar sep (a ++ sep :: r) = a :: splitOnChar sep r := by
  induction a with
  | nil => simp [splitOnChar]
  | cons c rest ih =>
    simp only [List.mem_cons, not_or] at h
    simp only [List.cons_append, splitOnChar, List.append_eq]
    rw [if_neg (fun hc => h.1 hc.symm), ih h.2]

/-! ### URL-safe unpadded base64 (`encoding/base64.RawURLEncoding`) -/

def b64c (n : Nat) : Char :=
  if n < 26 then Char.ofNat (65 + n)
  else if n < 52 then Char.ofNat (97 + (n - 26))
  else if n < 62 then Char.ofNat (48 + (n - 52))
  else if n = 62 then '-'
  else '_'

def b64d (c : Char) : Option Nat :=
  if 65 ≤ c.toNat ∧ c.toNat ≤ 90 then some (c.toNat - 65)
  else if 97 ≤ c.toNat ∧ c.toNat ≤ 122 then some (26 + (c.toNat - 97))
  else if 48 ≤ c.toNat ∧ c.toNat ≤ 57 then some (52 + (c.toNat - 48))
  else if c = '-' then some 62
  else if c = '_' then some 63
  else none

def b64encode : List Nat → List Char
  | b1 :: b2 :: b3 :: rest =>
    b64c (b1 / 4) :: b64c ((b1 % 4) * 16 + b2 / 16) ::
    b64c ((b2 % 16) * 4 + b3 / 64) :: b64c (b3 % 64) :: b64encode rest
  | [b1, b2] => [b64c (b1 / 4), b64c ((b1 % 4) * 16 + b2 / 16), b64c ((b2 % 16) * 4)]
  | [b1] => [b64c (b1 / 4), b64c ((b1 % 4) * 16)]
  | [] => []

def b64decode : List Char → Except String (List Nat)
  | [] => .ok []
  | [c1, c2] =>
    match b64d c1, b64d c2 with
    | some v1, some v2 => .ok [v1 * 4 + v2 / 16]
    | _, _ => .error "illegal base64 data"
  | [c1, c2, c3] =>
    match b64d c1, b64d c2, b64d c3 with
    | some v1, some v2, some v3 => .ok [v1 * 4 + v2 / 16, (v2 % 16) * 16 + v3 / 4]
    | _, _, _ => .error "illegal base64 data"
  | c1 :: c2 :: c3 :: c4 :: rest =>
    match b64d c1, b64d c2, b64d c3, b64d c4, b64decode rest with
    | some v1, some v2, some v3, some v4, .ok bs =>
      .ok ((v1 * 4 + v2 / 16) :: ((v2 % 16) * 16 + v3 / 4) :: ((v3 % 4) * 64 + v4) :: bs)
    | _, _, _, _, _ => .error "illegal base64 data"
  | [_] => .error "illegal base64 data"

theorem b64d_b64c : ∀ n < 64, b64d (b64c n) = some n := by decide

theorem b64c_ne_dot : ∀ n < 64, b64c n ≠ '.' := by decide

theorem b64decode_encode (bs : List Nat) (h : ∀ b ∈ bs, b < 256) :
    b64decode (b64encode bs) = .ok bs := by
  induction bs using b64encode.induct with
  | case1 b1 b2 b3 rest ih =>
    have h1 : b1 < 256 := h b1 (by simp)
    have h2 : b2 < 256 := h b2 (by simp)
    have h3 : b3 < 256 := h b3 (by simp)
    have ih' := ih (fun b hb => h b (by simp [hb]))
    simp only [b64encode, b64decode]
    rw [b64d_b64c _ (by omega), b64d_b64c _ (by omega),
        b64d_b64c _ (by omega), b64d_b64c _ (by omega), ih']
    have e1 : b1 / 4 * 4 + ((b1 % 4) * 16 + b2 / 16) / 16 = b1 := by omega
    have e2 : ((b1 % 4) * 16 + b2 / 16) % 16 * 16 + ((b2 % 16) * 4 + b3 / 64) / 4 = b2 := by
      omega
    have e3 : ((b2 % 16) * 4 + b3 / 64) % 4 * 64 + b3 % 64 = b3 := by omega
    dsimp only
    rw [e1, e2, e3]
  | case2 b1 b2 =>
    have h1 : b1 < 256 := h b1 (by simp)
    have h2 : b2 < 256 := h b2 (by simp)
    simp only [b64encode, b64decode]
    rw [b64d_b64c _ (by omega), b64d_b64c _ (by omega), b64d_b64c _ (by omega)]
    have e1 : b1 / 4 * 4 + ((b1 % 4) * 16 + b2 / 16) / 16 = b1 := by omega
    have e2 : ((b1 % 4) * 16 + b2 / 16) % 16 * 16 + ((b2 % 16) * 4) / 4 = b2 := by omega
    dsimp only
    rw [e1, e2]
  | case3 b1 =>
    have h1 : b1 < 256 := h b1 (by simp)
    simp only [b64encode, b64decode]
    rw [b64d_b64c _ (by omega), b64d_b64c _ (by omega)]
    have e1 : b1 / 4 * 4 + ((b1 % 4) * 16) / 16 = b1 := by omega
    dsimp only
    rw [e1]
  | case4 => rfl

theorem b64encode_no_dot (bs : List Nat) (h : ∀ b ∈ bs, b < 256) :
    '.' ∉ b64encode bs := by
  induction bs using b64encode.induct with
  | case1 b1 b2 b3 rest ih =>
    have h1 : b1 < 256 := h b1 (by simp)
    have h2 : b2 < 256 := h b2 (by simp)
    have h3 : b3 < 256 := h b3 (by simp)
    have ih' := ih (fun b hb => h b (by simp [hb]))
    simp only [b64encode, List.mem_cons, not_or]
    refine ⟨?_, ?_, ?_, ?_, ih'⟩ <;>
      (intro hc; exact b64c_ne_dot _ (by omega) hc.symm)
  | case2 b1 b2 =>
    have h1 : b1 < 256 := h b1 (by simp)
    have h2 : b2 < 256 := h b2 (by simp)
    simp only [b64encode, List.mem_cons, not_or, List.not_mem_nil]
    refine ⟨?_, ?_, ?_, not_false⟩ <;>
      (intro hc; exact b64c_ne_dot _ (by omega) hc.symm)
  | case3 b1 =>
    have h1 : b1 < 256 := h b1 (by simp)
    simp only [b64encode, List.mem_cons, not_or, List.not_mem_nil]
    refine ⟨?_, ?_, not_false⟩ <;>
      (intro hc; exact b64c_ne_dot _ (by omega) hc.symm)
  | case4 => simp [b64encode]

/-! ### JSON values, as the fragment of `encoding/json` the library exchanges.
Numbers are modelled as integers (the token payloads and error bodies the
library handles carry integer timestamps and string fields). -/

inductive Json where
  | null : Json
  | bool : Bool → Json
  | num : Int → Json
  | str : List Char → Json
  | arr : List Json → Json
  | obj : List (List Char × Json) → Json

/-! Serialisation of a JSON value to text (the encoding a client of
`decodeJWT` uses to build a token payload). -/

def digitChar (n : Nat) : Char := Char.ofNat (48 + n)

def natCharsAux : Nat → Nat → List Char
  | 0, _ => []
  | f + 1, n =>
    if n < 10 then [digitChar n]
    else natCharsAux f (n / 10) ++ [digitChar (n % 10)]

def natChars (n : Nat) : List Char := natCharsAux (n + 1) n

def intChars (n : Int) : List Char :=
  if n < 0 then '-' :: natChars (-n).toNat else natChars n.toNat

mutual
def serializeJson : Json → List Char
  | .num n => intChars n
  | .str s => '"' :: s ++ ['"']
  | .null => 'n' :: ['u', 'l', 'l']
  | .bool true => 't' :: ['r', 'u', 'e']
  | .bool false => 'f' :: ['a', 'l', 's', 'e']
  | .arr xs => '[' :: serializeElems xs ++ [']']
  | .obj kvs => '{' :: serializeMembers kvs ++ ['}']

def serializeElems : List Json → List Char
  | [] => []
  | [x] => serializeJson x
  | x :: y :: xs => serializeJson x ++ ',' :: serializeElems (y :: xs)

def serializeMembers : List (List Char × Json) → List Char
  | [] => []
  | [(k, v)] => '"' :: k ++ '"' :: ':' :: serializeJson v
  | (k, v) :: m :: kvs =>
    '"' :: k ++ '"' :: ':' :: serializeJson v ++ ',' :: serializeMembers (m :: kvs)
end

/-! Fuel bounds for the parser: enough recursion depth to consume a
serialised value. -/

mutual
def jsize : Json → Nat
  | .null => 1
  | .bool _ => 1
  | .num _ => 1
  | .str _ => 1
  | .arr xs => 1 + jsizeL xs
  | .obj kvs => 1 + jsizeM kvs

def jsizeL : List Json → Nat
  | [] => 0
  | x :: xs => 1 + max (jsize x) (jsizeL xs)

def jsizeM : List (List Char × Json) → Nat
  | [] => 0
  | (_, v) :: kvs => 1 + max (jsize v) (jsizeM kvs)
end

/-! Well-formedness of a JSON value for the round trip: string contents
(and object keys) are printable ASCII with no quote or backslash (so that
serialisation needs no escaping), object keys are distinct (Go decodes an
object into a map), and numbers fit the range `float64` represents exactly
(Go decodes every JSON number as a `float64`). -/

def wfChar (c : Char) : Bool :=
  decide (32 ≤ c.toNat) && decide (c.toNat < 128) && !(c = '"') && !(c = '\\')

mutual
def wfJ : Json → Bool
  | .null => true
  | .bool _ => true
  | .num n => decide (n.natAbs ≤ 9007199254740992)
  | .str s => s.all wfChar
  | .arr xs => wfL xs
  | .obj kvs => wfM kvs

def wfL : List Json → Bool
  | [] => true
  | x :: xs => wfJ x && wfL xs

def wfM : List (List Char × Json) → Bool
  | [] => true
  | (k, v) :: kvs => k.all wfChar && wfJ v && wfM kvs && kvs.all (fun p => !(p.1 = k))
end

/-! ### The JSON parser, modelling `encoding/json.Unmarshal`'s syntax for
the fragment above: a recursive-descent reader with explicit fuel. -/

def isWsChar (c : Char) : Bool := c = ' ' || c = '\t' || c = '\n' || c = '\r'

def skipWs : List Char → List Char
  | [] => []
  | c :: t => if isWsChar c then skipWs t else c :: t

def isDigitChar (c : Char) : Bool := decide (48 ≤ c.toNat) && decide (c.toNat ≤ 57)

def takeDigits : List Char → List Char × List Char
  | [] => ([], [])
  | c :: t =>
    if isDigitChar c then
      match takeDigits t with
      | (d, r) => (c :: d, r)
    else ([], c :: t)

def digitsVal (l : List Char) : Nat :=
  l.foldl (fun a c => a * 10 + (c.toNat - 48)) 0

def parseNumber (l : List Char) : Except String (Json × List Char) :=
  match l with
  | [] => .error "invalid number"
  | c :: t =>
    if c = '-' then
      match takeDigits t with
      | ([], _) => .error "invalid number"
      | (d, r) => .ok (.num (-(digitsVal d : Int)), r)
    else
      match takeDigits (c :: t) with
      | ([], _) => .error "invalid number"
      | (d, r) => .ok (.num (digitsVal d : Int), r)

def parseStr : List Char → Except String (List Char × List Char)
  | [] => .error "unterminated string"
  | c :: t =>
    if c = '"' then .ok ([], t)
    else if c = '\\' then
      match t with
      | [] => .error "unterminated escape"
      | e :: t2 =>
        let ec : Except String Char :=
          if e = '"' then .ok '"'
          else if e = '\\' then .ok '\\'
          else if e = '/' then .ok '/'
          else if e = 'n' then .ok '\n'
          else if e = 't' then .ok '\t'
          else if e = 'r' then .ok '\r'
          else .error "unsupported escape"
        match ec with
        | .error m => .error m
        | .ok d =>
          match parseStr t2 with
          | .error m => .error m
          | .ok (s, r) => .ok (d :: s, r)
    else
      match parseStr t with
      | .error m => .error m
      | .ok (s, r) => .ok (c :: s, r)

mutual
def parseVal : Nat → List Char → Except String (Json × List Char)
  | 0, _ => .error "value nesting exceeds fuel"
  | fuel + 1, l =>
    match skipWs l with
    | [] => .error "unexpected end of JSON input"
    | c :: t =>
      if c = 'n' then
        match t with
        | 'u' :: 'l' :: 'l' :: r => .ok (.null, r)
        | _ => .error "invalid literal"
      else if c = 't' then
        match t with
        | 'r' :: 'u' :: 'e' :: r => .ok (.bool true, r)
        | _ => .error "invalid literal"
      else if c = 'f' then
        match t with
        | 'a' :: 'l' :: 's' :: 'e' :: r => .ok (.bool false, r)
        | _ => .error "invalid literal"
      else if c = '"' then
        match parseStr t with
        | .error m => .error m
        | .ok (s, r) => .ok (.str s, r)
      else if c = '[' then
        match skipWs t with
        | [] => .error "unexpected end of JSON input"
        | c2 :: t2 =>
          if c2 = ']' then .ok (.arr [], t2)
          else
            match parseElems fuel (c2 :: t2) with
            | .error m => .error m
            | .ok (xs, r) => .ok (.arr xs, r)
      else if c = '{' then
        match skipWs t with
        | [] => .error "unexpected end of JSON input"
        | c2 :: t2 =>
          if c2 = '}' then .ok (.obj [], t2)
          else
            match parseMembers fuel (c2 :: t2) with
            | .error m => .error m
            | .ok (kvs, r) => .ok (.obj kvs, r)
      else if c = '-' || isDigitChar c then parseNumber (c :: t)
      else .error "invalid character"

def parseElems : Nat → List Char → Except String (List Json × List Char)
  | 0, _ => .error "value nesting exceeds fuel"
  | fuel + 1, l =>
    match parseVal fuel l with
    | .error m => .error m
    | .ok (v, r) =>
      match skipWs r with
      | [] => .error "unexpected end of JSON input"
      | c :: r2 =>
        if c = ',' then
          match parseElems fuel r2 with
          | .error m => .error m
          | .ok (xs, r3) => .ok (v :: xs, r3)
        else if c = ']' then .ok ([v], r2)
        else .error "expected comma or close bracket after array element"

def parseMembers : Nat → List Char → Except String (List (List Char × Json) × List Char)
  | 0, _ => .error "value nesting exceeds fuel"
  | fuel + 1, l =>
    match skipWs l with
    | [] => .error "unexpected end of JSON input"
    | c :: t =>
      if c = '"' then
        match parseStr t with
        | .error m => .error m
        | .ok (k, r) =>
          match skipWs r with
          | [] => .error "unexpected end of JSON input"
          | c2 :: r2 =>
            if c2 = ':' then
              match parseVal fuel r2 with
              | .error m => .error m
              | .ok (v, r3) =>
                match skipWs r3 with
                | [] => .error "unexpected end of JSON input"
                | c3 :: r4 =>
                  if c3 = ',' then
                    match parseMembers fuel r4 with
                    | .error m => .error m
                    | .ok (kvs, r5) => .ok ((k, v) :: kvs, r5)
                  else if c3 = '}' then .ok ([(k, v)], r4)
                  else .error "expected comma or close brace after object member"
            else .error "expected colon after object key"
      else .error "expected string key in object"
end

def jsonParse (l : List Char) : Except String Json :=
  match parseVal (l.length + 1) l with
  | .error m => .error m
  | .ok (v, r) =>
    match skipWs r with
    | [] => .ok v
    | _ => .error "trailing data after JSON value"

/-! ### Lemmas: decimal digits round-trip -/

theorem digitChar_toNat (m : Nat) (h : m < 10) : (digitChar m).toNat = 48 + m := by
  interval_cases m <;> decide

theorem natCharsAux_irrel (f1 : Nat) : ∀ f2 n : Nat, n < f1 → n < f2 →
    natCharsAux f1 n = natCharsAux f2 n := by
  induction f1 with
  | zero => intro f2 n h1 _; omega
  | succ f1 ih =>
    intro f2 n h1 h2
    cases f2 with
    | zero => omega
    | succ f2 =>
      simp only [natCharsAux]
      by_cases h : n < 10
      · simp [h]
      · simp only [if_neg h]
        rw [ih f2 (n / 10) (by omega) (by omega)]

theorem natChars_eq (n : Nat) :
    natChars n = if n < 10 then [digitChar n]
      else natChars (n / 10) ++ [digitChar (n % 10)] := by
  by_cases h : n < 10
  · rw [if_pos h]
    unfold natChars
    simp [natCharsAux, h]
  · rw [if_neg h]
    show natCharsAux (n + 1) n = natCharsAux (n / 10 + 1) (n / 10) ++ [digitChar (n % 10)]
    rw [natCharsAux, if_neg h, natCharsAux_irrel n (n / 10 + 1) (n / 10) (by omega) (by omega)]

theorem natChars_head (n : Nat) :
    ∃ c t, natChars n = c :: t ∧ 48 ≤ c.toNat ∧ c.toNat ≤ 57 := by
  induction n using Nat.strong_induction_on with
  | _ n ih =>
    rw [natChars_eq n]
    by_cases h : n < 10
    · rw [if_pos h]
      exact ⟨digitChar n, [], rfl, by rw [digitChar_toNat n h]; omega,
        by rw [digitChar_toNat n h]; omega⟩
    · rw [if_neg h]
      obtain ⟨c, t, he, h1, h2⟩ := ih (n / 10) (by omega)
      exact ⟨c, t ++ [digitChar (n % 10)], by rw [he]; rfl, h1, h2⟩

theorem natChars_digits (n : Nat) : ∀ c ∈ natChars n, isDigitChar c = true := by
  induction n using Nat.strong_induction_on with
  | _ n ih =>
    intro c hc
    rw [natChars_eq n] at hc
    by_cases h : n < 10
    · rw [if_pos h] at hc
      simp only [List.mem_singleton] at hc
      subst hc
      simp only [isDigitChar, digitChar_toNat n h, Bool.and_eq_true, decide_eq_true_eq]
      omega
    · rw [if_neg h] at hc
      rcases List.mem_append.mp hc with hc2 | hc2
      · exact ih (n / 10) (by omega) c hc2
      · simp only [List.mem_singleton] at hc2
        subst hc2
        have h10 : n % 10 < 10 := Nat.mod_lt _ (by omega)
        simp only [isDigitChar, digitChar_toNat _ h10, Bool.and_eq_true, decide_eq_true_eq]
        omega

theorem digitsVal_natChars (n : Nat) : digitsVal (natChars n) = n := by
  induction n using Nat.strong_induction_on with
  | _ n ih =>
    rw [natChars_eq n]
    by_cases h : n < 10
    · rw [if_pos h]
      simp [digitsVal, digitChar_toNat n h]
    · rw [if_neg h]
      have ih2 := ih (n / 10) (by omega)
      have h10 : n % 10 < 10 := Nat.mod_lt _ (by omega)
      simp only [digitsVal, List.foldl_append, List.foldl_cons, List.foldl_nil] at ih2 ⊢
      rw [ih2, digitChar_toNat _ h10]
      omega

def headNotDigit : List Char → Bool
  | [] => true
  | c :: _ => !isDigitChar c

theorem takeDigits_append (d r : List Char) (hd : ∀ c ∈ d, isDigitChar c = true)
    (hr : headNotDigit r = true) : takeDigits (d ++ r) = (d, r) := by
  induction d with
  | nil =>
    simp only [List.nil_append]
    cases r with
    | nil => rfl
    | cons c t =>
      simp only [headNotDigit, Bool.not_eq_true'] at hr
      simp [takeDigits, hr]
  | cons c d' ih =>
    have hc : isDigitChar c = true := hd c (by simp)
    have ih' := ih (fun x hx => hd x (by simp [hx]))
    simp only [List.cons_append, takeDigits, hc, if_true, List.append_eq, ih']

theorem parseNumber_intChars (n : Int) (r : List Char) (hr : headNotDigit r = true) :
    parseNumber (intChars n ++ r) = .ok (.num n, r) := by
  by_cases hn : n < 0
  · simp only [intChars, if_pos hn, List.cons_append, parseNumber, if_pos rfl]
    obtain ⟨c, t, he, h1, h2⟩ := natChars_head (-n).toNat
    rw [takeDigits_append _ _ (natChars_digits _) hr, he]
    dsimp only
    rw [← he, digitsVal_natChars]
    have hn2 : (((-n).toNat : Int)) = -n := Int.toNat_of_nonneg (by omega)
    rw [hn2, neg_neg]
    simp only [if_true]
  · simp only [intChars, if_neg hn]
    obtain ⟨c, t, he, h1, h2⟩ := natChars_head n.toNat
    rw [he, List.cons_append, parseNumber]
    have hcm : ¬ c = '-' := by
      intro hc
      subst hc
      revert h1
      decide
    rw [if_neg hcm, ← List.cons_append, ← he,
        takeDigits_append _ _ (natChars_digits _) hr, he]
    dsimp only
    rw [← he, digitsVal_natChars]
    have hn2 : ((n.toNat : Int)) = n := Int.toNat_of_nonneg (by omega)
    rw [hn2]

/-! ### Lemmas: string contents round-trip -/

theorem parseStr_append (s r : List Char) (hs : ∀ c ∈ s, wfChar c = true) :
    parseStr (s ++ '"' :: r) = .ok (s, r) := by
  induction s with
  | nil =>
    rw [List.nil_append, parseStr.eq_def]
    dsimp only
    rw [if_pos rfl]
  | cons c t ih =>
    have hc := hs c (by simp)
    simp only [wfChar, Bool.and_eq_true, Bool.not_eq_true', decide_eq_true_eq] at hc
    rw [List.cons_append, parseStr.eq_def]
    dsimp only
    rw [if_neg (of_decide_eq_false hc.1.2), if_neg (of_decide_eq_false hc.2),
        ih (fun x hx => hs x (by simp [hx]))]

/-! ### Lemmas: shapes and sizes of serialised values -/

theorem jsize_pos (v : Json) : 1 ≤ jsize v := by
  cases v <;> simp [jsize]

theorem jsizeL_pos (xs : List Json) (h : xs ≠ []) : 1 ≤ jsizeL xs := by
  cases xs with
  | nil => exact absurd rfl h
  | cons x t => simp [jsizeL]

theorem jsizeM_pos (kvs : List (List Char × Json)) (h : kvs ≠ []) : 1 ≤ jsizeM kvs := by
  cases kvs with
  | nil => exact absurd rfl h
  | cons p t => obtain ⟨k, v⟩ := p; simp [jsizeM]

theorem digit_char_facts {c : Char} (h1 : 48 ≤ c.toNat) (h2 : c.toNat ≤ 57) :
    isWsChar c = false ∧ ¬c = 'n' ∧ ¬c = 't' ∧ ¬c = 'f' ∧ ¬c = '"' ∧
      ¬c = '[' ∧ ¬c = '{' ∧ ¬c = ']' ∧ isDigitChar c = true := by
  refine ⟨?_, ?_, ?_, ?_, ?_, ?_, ?_, ?_, ?_⟩
  · simp only [isWsChar, Bool.or_eq_false_iff, decide_eq_false_iff_not]
    refine ⟨⟨⟨?_, ?_⟩, ?_⟩, ?_⟩ <;> (intro hh; subst hh; revert h1; decide)
  · intro hh; subst hh; revert h2; decide
  · intro hh; subst hh; revert h2; decide
  · intro hh; subst hh; revert h2; decide
  · intro hh; subst hh; revert h1; decide
  · intro hh; subst hh; revert h2; decide
  · intro hh; subst hh; revert h2; decide
  · intro hh; subst hh; revert h2; decide
  · simp only [isDigitChar, Bool.and_eq_true, decide_eq_true_eq]
    exact ⟨h1, h2⟩

theorem serializeJson_head (v : Json) :
    ∃ c t, serializeJson v = c :: t ∧ isWsChar c = false ∧ ¬c = ']' := by
  cases v with
  | null => exact ⟨'n', _, rfl, by decide, by decide⟩
  | bool b => cases b with
    | true => exact ⟨'t', _, rfl, by decide, by decide⟩
    | false => exact ⟨'f', _, rfl, by decide, by decide⟩
  | num n =>
    by_cases hn : n < 0
    · refine ⟨'-', natChars (-n).toNat, ?_, by decide, by decide⟩
      simp [serializeJson, intChars, hn]
    · obtain ⟨c, t, he, h1, h2⟩ := natChars_head n.toNat
      have hf := digit_char_facts h1 h2
      refine ⟨c, t, ?_, hf.1, hf.2.2.2.2.2.2.2.1⟩
      simp [serializeJson, intChars, hn, he]
  | str s => exact ⟨'"', _, rfl, by decide, by decide⟩
  | arr xs => exact ⟨'[', _, rfl, by decide, by decide⟩
  | obj kvs => exact ⟨'{', _, rfl, by decide, by decide⟩

theorem serializeElems_head (x : Json) (xs : List Json) :
    ∃ c t, serializeElems (x :: xs) = c :: t ∧ isWsChar c = false ∧ ¬c = ']' := by
  obtain ⟨c, t, he, hws, hnb⟩ := serializeJson_head x
  cases xs with
  | nil => exact ⟨c, t, by simp [serializeElems, he], hws, hnb⟩
  | cons y ys =>
    exact ⟨c, t ++ ',' :: serializeElems (y :: ys),
      by simp [serializeElems, he], hws, hnb⟩

theorem serializeMembers_head (k : List Char) (v : Json) (kvs : List (List Char × Json)) :
    ∃ t, serializeMembers ((k, v) :: kvs) = '"' :: t := by
  cases kvs with
  | nil => exact ⟨_, rfl⟩
  | cons m kvs2 => exact ⟨_, rfl⟩

theorem skipWs_cons {c : Char} (t : List Char) (h : isWsChar c = false) :
    skipWs (c :: t) = c :: t := by
  rw [skipWs, h]
  simp

theorem wfL_cons {x : Json} {xs : List Json} (h : wfL (x :: xs) = true) :
    wfJ x = true ∧ wfL xs = true := by
  simp only [wfL, Bool.and_eq_true] at h
  exact h

theorem wfM_cons {k : List Char} {v : Json} {kvs : List (List Char × Json)}
    (h : wfM ((k, v) :: kvs) = true) :
    (∀ c ∈ k, wfChar c = true) ∧ wfJ v = true ∧ wfM kvs = true := by
  simp only [wfM, Bool.and_eq_true, List.all_eq_true] at h
  exact ⟨fun c hc => h.1.1.1 c hc, h.1.1.2, h.1.2⟩

theorem parse_serialize : ∀ fuel : Nat,
    (∀ v r, wfJ v = true → jsize v ≤ fuel → headNotDigit r = true →
      parseVal fuel (serializeJson v ++ r) = .ok (v, r)) ∧
    (∀ xs r, xs ≠ [] → wfL xs = true → jsizeL xs ≤ fuel →
      parseElems fuel (serializeElems xs ++ ']' :: r) = .ok (xs, r)) ∧
    (∀ kvs r, kvs ≠ [] → wfM kvs = true → jsizeM kvs ≤ fuel →
      parseMembers fuel (serializeMembers kvs ++ '}' :: r) = .ok (kvs, r)) := by
  intro fuel
  induction fuel with
  | zero =>
    refine ⟨fun v r _ hsz _ => absurd hsz (by have := jsize_pos v; omega),
      fun xs r hne _ hsz => absurd hsz (by have := jsizeL_pos xs hne; omega),
      fun kvs r hne _ hsz => absurd hsz (by have := jsizeM_pos kvs hne; omega)⟩
  | succ fuel ih =>
    obtain ⟨ihV, ihE, ihM⟩ := ih
    refine ⟨?_, ?_, ?_⟩
    · intro v r hwf hsz hr
      cases v with
      | null => rfl
      | bool b => cases b <;> rfl
      | num n =>
        simp only [serializeJson]
        by_cases hn : n < 0
        · have he : intChars n = '-' :: natChars (-n).toNat := by
            simp [intChars, hn]
          rw [he, List.cons_append, parseVal.eq_def]
          dsimp only
          rw [skipWs_cons _ (by decide)]
          dsimp only
          rw [if_neg (by decide), if_neg (by decide), if_neg (by decide),
              if_neg (by decide), if_neg (by decide), if_neg (by decide),
              if_pos (by decide), ← List.cons_append, ← he,
              parseNumber_intChars n r hr]
        · obtain ⟨c, t, hnc, h1, h2⟩ := natChars_head n.toNat
          have hf := digit_char_facts h1 h2
          have he : intChars n = c :: t := by
            simp [intChars, hn, hnc]
          rw [he, List.cons_append, parseVal.eq_def]
          dsimp only
          rw [skipWs_cons _ hf.1]
          dsimp only
          rw [if_neg hf.2.1, if_neg hf.2.2.1, if_neg hf.2.2.2.1, if_neg hf.2.2.2.2.1,
              if_neg hf.2.2.2.2.2.1, if_neg hf.2.2.2.2.2.2.1,
              if_pos (by simp [hf.2.2.2.2.2.2.2.2]),
              ← List.cons_append, ← he, parseNumber_intChars n r hr]
      | str s =>
        have hs : ∀ c ∈ s, wfChar c = true := by
          simpa [wfJ, List.all_eq_true] using hwf
        have hser : serializeJson (.str s) ++ r = '"' :: (s ++ '"' :: r) := by
          simp [serializeJson]
        rw [hser, parseVal.eq_def]
        dsimp only
        rw [skipWs_cons _ (by decide)]
        dsimp only
        rw [if_neg (by decide), if_neg (by decide), if_neg (by decide), if_pos rfl,
            parseStr_append s r hs]
      | arr xs =>
        cases xs with
        | nil => rfl
        | cons x xs2 =>
          have hser : serializeJson (.arr (x :: xs2)) ++ r
              = '[' :: (serializeElems (x :: xs2) ++ ']' :: r) := by
            simp [serializeJson]
          rw [hser, parseVal.eq_def]
          dsimp only
          rw [skipWs_cons _ (by decide)]
          dsimp only
          rw [if_neg (by decide), if_neg (by decide), if_neg (by decide),
              if_neg (by decide), if_pos rfl]
          obtain ⟨c, t, heh, hws, hnb⟩ := serializeElems_head x xs2
          rw [heh, List.cons_append, skipWs_cons _ hws]
          dsimp only
          rw [if_neg hnb, ← List.cons_append, ← heh]
          have hsz2 : jsizeL (x :: xs2) ≤ fuel := by
            simp only [jsize] at hsz; omega
          rw [ihE (x :: xs2) r (by simp) hwf hsz2]
      | obj kvs =>
        cases kvs with
        | nil => rfl
        | cons p kvs2 =>
          obtain ⟨k, v⟩ := p
          have hser : serializeJson (.obj ((k, v) :: kvs2)) ++ r
              = '{' :: (serializeMembers ((k, v) :: kvs2) ++ '}' :: r) := by
            simp [serializeJson]
          rw [hser, parseVal.eq_def]
          dsimp only
          rw [skipWs_cons _ (by decide)]
          dsimp only
          rw [if_neg (by decide), if_neg (by decide), if_neg (by decide),
              if_neg (by decide), if_neg (by decide), if_pos rfl]
          obtain ⟨t, heh⟩ := serializeMembers_head k v kvs2
          rw [heh, List.cons_append, skipWs_cons _ (by decide)]
          dsimp only
          rw [if_neg (by decide), ← List.cons_append, ← heh]
          have hsz2 : jsizeM ((k, v) :: kvs2) ≤ fuel := by
            simp only [jsize] at hsz; omega
          rw [ihM ((k, v) :: kvs2) r (by simp) hwf hsz2]
    · intro xs r hne hwf hsz
      cases xs with
      | nil => exact absurd rfl hne
      | cons x xs2 =>
        obtain ⟨hwfx, hwf2⟩ := wfL_cons hwf
        cases xs2 with
        | nil =>
          have hszx : jsize x ≤ fuel := by
            simp only [jsizeL] at hsz; omega
          simp only [serializeElems]
          rw [parseElems.eq_def]
          dsimp only
          rw [ihV x (']' :: r) hwfx hszx rfl]
          dsimp only
          rw [skipWs_cons _ (by decide)]
          dsimp only
          rw [if_neg (by decide), if_pos rfl]
        | cons y ys =>
          have hszx : jsize x ≤ fuel := by
            simp only [jsizeL] at hsz; omega
          have hszy : jsizeL (y :: ys) ≤ fuel := by
            simp only [jsizeL] at hsz ⊢; omega
          have hser : serializeElems (x :: y :: ys) ++ ']' :: r
              = serializeJson x ++ ',' :: (serializeElems (y :: ys) ++ ']' :: r) := by
            simp [serializeElems]
          rw [hser, parseElems.eq_def]
          dsimp only
          rw [ihV x (',' :: (serializeElems (y :: ys) ++ ']' :: r)) hwfx hszx rfl]
          dsimp only
          rw [skipWs_cons _ (by decide)]
          dsimp only
          rw [if_pos rfl, ihE (y :: ys) r (by simp) hwf2 hszy]
    · intro kvs r hne hwf hsz
      cases kvs with
      | nil => exact absurd rfl hne
      | cons p kvs2 =>
        obtain ⟨k, v⟩ := p
        obtain ⟨hk, hwfv, hwfm2⟩ := wfM_cons hwf
        cases kvs2 with
        | nil =>
          have hszv : jsize v ≤ fuel := by
            simp only [jsizeM] at hsz; omega
          have hser : serializeMembers [(k, v)] ++ '}' :: r
              = '"' :: (k ++ '"' :: ':' :: (serializeJson v ++ '}' :: r)) := by
            simp [serializeMembers]
          rw [hser, parseMembers.eq_def]
          dsimp only
          rw [skipWs_cons _ (by decide)]
          dsimp only
          rw [if_pos rfl, parseStr_append k _ hk]
          dsimp only
          rw [skipWs_cons _ (by decide)]
          dsimp only
          rw [if_pos rfl, ihV v ('}' :: r) hwfv hszv rfl]
          dsimp only
          rw [skipWs_cons _ (by decide)]
          dsimp only
          rw [if_neg (by decide), if_pos rfl]
        | cons p2 kvs3 =>
          obtain ⟨k2, v2⟩ := p2
          have hszv : jsize v ≤ fuel := by
            simp only [jsizeM] at hsz; omega
          have hszm : jsizeM ((k2, v2) :: kvs3) ≤ fuel := by
            simp only [jsizeM] at hsz ⊢; omega
          have hser : serializeMembers ((k, v) :: (k2, v2) :: kvs3) ++ '}' :: r
              = '"' :: (k ++ '"' :: ':' ::
                  (serializeJson v ++ ',' :: (serializeMembers ((k2, v2) :: kvs3) ++ '}' :: r))) := by
            simp [serializeMembers]
          rw [hser, parseMembers.eq_def]
          dsimp only
          rw [skipWs_cons _ (by decide)]
          dsimp only
          rw [if_pos rfl, parseStr_append k _ hk]
          dsimp only
          rw [skipWs_cons _ (by decide)]
          dsimp only
          rw [if_pos rfl,
              ihV v (',' :: (serializeMembers ((k2, v2) :: kvs3) ++ '}' :: r)) hwfv hszv rfl]
          dsimp only
          rw [skipWs_cons _ (by decide)]
          dsimp only
          rw [if_pos rfl, ihM ((k2, v2) :: kvs3) r (by simp) hwfm2 hszm]

theorem jsize_le_aux : ∀ N : Nat,
    (∀ v, jsize v ≤ N → jsize v ≤ (serializeJson v).length) ∧
    (∀ xs, xs ≠ [] → jsizeL xs ≤ N → jsizeL xs ≤ (serializeElems xs).length + 1) ∧
    (∀ kvs, kvs ≠ [] → jsizeM kvs ≤ N → jsizeM kvs ≤ (serializeMembers kvs).length + 1) := by
  intro N
  induction N with
  | zero =>
    refine ⟨fun v hsz => absurd hsz (by have := jsize_pos v; omega),
      fun xs hne hsz => absurd hsz (by have := jsizeL_pos xs hne; omega),
      fun kvs hne hsz => absurd hsz (by have := jsizeM_pos kvs hne; omega)⟩
  | succ N ih =>
    obtain ⟨ihV, ihE, ihM⟩ := ih
    refine ⟨?_, ?_, ?_⟩
    · intro v hsz
      cases v with
      | null => simp [jsize, serializeJson]
      | bool b => cases b <;> simp [jsize, serializeJson]
      | num n =>
        obtain ⟨c, t, he, h1, h2⟩ := serializeJson_head (.num n)
        simp [jsize, he]
      | str s =>
        simp [jsize, serializeJson]
      | arr xs =>
        cases xs with
        | nil => simp [jsize, jsizeL, serializeJson, serializeElems]
        | cons x xs2 =>
          have h2 : jsizeL (x :: xs2) ≤ N := by
            simp only [jsize] at hsz; omega
          have := ihE (x :: xs2) (by simp) h2
          simp only [jsize, serializeJson, List.length_cons, List.length_append,
            List.length_singleton]
          omega
      | obj kvs =>
        cases kvs with
        | nil => simp [jsize, jsizeM, serializeJson, serializeMembers]
        | cons p kvs2 =>
          obtain ⟨k, v⟩ := p
          have h2 : jsizeM ((k, v) :: kvs2) ≤ N := by
            simp only [jsize] at hsz; omega
          have := ihM ((k, v) :: kvs2) (by simp) h2
          simp only [jsize, serializeJson, List.length_cons, List.length_append,
            List.length_singleton]
          omega
    · intro xs hne hsz
      cases xs with
      | nil => exact absurd rfl hne
      | cons x xs2 =>
        cases xs2 with
        | nil =>
          have hx : jsize x ≤ N := by
            simp only [jsizeL] at hsz; omega
          have := ihV x hx
          simp only [jsizeL, serializeElems]
          omega
        | cons y ys =>
          have hx : jsize x ≤ N := by
            simp only [jsizeL] at hsz; omega
          have hy : jsizeL (y :: ys) ≤ N := by
            simp only [jsizeL] at hsz ⊢; omega
          have h1 := ihV x hx
          have h2 := ihE (y :: ys) (by simp) hy
          simp only [jsizeL, serializeElems, List.length_append, List.length_cons] at h2 ⊢
          omega
    · intro kvs hne hsz
      cases kvs with
      | nil => exact absurd rfl hne
      | cons p kvs2 =>
        obtain ⟨k, v⟩ := p
        cases kvs2 with
        | nil =>
          have hv : jsize v ≤ N := by
            simp only [jsizeM] at hsz; omega
          have := ihV v hv
          simp only [jsizeM, serializeMembers, List.length_append, List.length_cons]
          omega
        | cons p2 kvs3 =>
          obtain ⟨k2, v2⟩ := p2
          have hv : jsize v ≤ N := by
            simp only [jsizeM] at hsz; omega
          have hm : jsizeM ((k2, v2) :: kvs3) ≤ N := by
            simp only [jsizeM] at hsz ⊢; omega
          have h1 := ihV v hv
          have h2 := ihM ((k2, v2) :: kvs3) (by simp) hm
          simp only [jsizeM, serializeMembers, List.length_append, List.length_cons] at h2 ⊢
          omega

theorem jsize_le_serialize (v : Json) : jsize v ≤ (serializeJson v).length :=
  (jsize_le_aux (jsize v)).1 v le_rfl

theorem jsonParse_serializeJson (v : Json) (h : wfJ v = true) :
    jsonParse (serializeJson v) = .ok v := by
  unfold jsonParse
  have hp := (parse_serialize ((serializeJson v).length + 1)).1 v [] h
    (by have := jsize_le_serialize v; omega) rfl
  rw [List.append_nil] at hp
  rw [hp]
  rfl

theorem wfChar_lt128 {c : Char} (h : wfChar c = true) : c.toNat < 128 := by
  simp only [wfChar, Bool.and_eq_true, decide_eq_true_eq] at h
  exact h.1.1.2

theorem natChars_lt256 (n : Nat) (c : Char) (hc : c ∈ natChars n) : c.toNat < 256 := by
  have := natChars_digits n c hc
  simp only [isDigitChar, Bool.and_eq_true, decide_eq_true_eq] at this
  omega

theorem serialize_ascii_aux : ∀ N : Nat,
    (∀ v, jsize v ≤ N → wfJ v = true → ∀ c ∈ serializeJson v, c.toNat < 256) ∧
    (∀ xs, jsizeL xs ≤ N → wfL xs = true → ∀ c ∈ serializeElems xs, c.toNat < 256) ∧
    (∀ kvs, jsizeM kvs ≤ N → wfM kvs = true → ∀ c ∈ serializeMembers kvs, c.toNat < 256) := by
  intro N
  induction N with
  | zero =>
    refine ⟨fun v hsz => absurd hsz (by have := jsize_pos v; omega), ?_, ?_⟩
    · intro xs hsz _ c hc
      cases xs with
      | nil => simp [serializeElems] at hc
      | cons x t => exact absurd hsz (by have := jsizeL_pos (x :: t) (by simp); omega)
    · intro kvs hsz _ c hc
      cases kvs with
      | nil => simp [serializeMembers] at hc
      | cons p t => exact absurd hsz (by have := jsizeM_pos (p :: t) (by simp); omega)
  | succ N ih =>
    obtain ⟨ihV, ihE, ihM⟩ := ih
    refine ⟨?_, ?_, ?_⟩
    · intro v hsz hwf c hc
      cases v with
      | null =>
        simp only [serializeJson, List.mem_cons, List.not_mem_nil, or_false] at hc
        rcases hc with rfl | rfl | rfl | rfl <;> decide
      | bool b =>
        cases b <;>
          simp only [serializeJson, List.mem_cons, List.not_mem_nil, or_false] at hc
        · rcases hc with rfl | rfl | rfl | rfl | rfl <;> decide
        · rcases hc with rfl | rfl | rfl | rfl <;> decide
      | num n =>
        simp only [serializeJson, intChars] at hc
        by_cases hn : n < 0
        · rw [if_pos hn] at hc
          simp only [List.mem_cons] at hc
          rcases hc with rfl | hc
          · decide
          · exact natChars_lt256 _ c hc
        · rw [if_neg hn] at hc
          exact natChars_lt256 _ c hc
      | str s =>
        have hs : ∀ x ∈ s, wfChar x = true := by
          simpa [wfJ, List.all_eq_true] using hwf
        simp only [serializeJson, List.mem_cons, List.mem_append,
          List.not_mem_nil, or_false] at hc
        rcases hc with (rfl | hc) | rfl
        · decide
        · have := wfChar_lt128 (hs c hc); omega
        · decide
      | arr xs =>
        have hsz2 : jsizeL xs ≤ N := by simp only [jsize] at hsz; omega
        simp only [serializeJson, List.mem_cons, List.mem_append,
          List.not_mem_nil, or_false] at hc
        rcases hc with (rfl | hc) | rfl
        · decide
        · exact ihE xs hsz2 hwf c hc
        · decide
      | obj kvs =>
        have hsz2 : jsizeM kvs ≤ N := by simp only [jsize] at hsz; omega
        simp only [serializeJson, List.mem_cons, List.mem_append,
          List.not_mem_nil, or_false] at hc
        rcases hc with (rfl | hc) | rfl
        · decide
        · exact ihM kvs hsz2 hwf c hc
        · decide
    · intro xs hsz hwf c hc
      cases xs with
      | nil => simp [serializeElems] at hc
      | cons x xs2 =>
        obtain ⟨hwfx, hwf2⟩ := wfL_cons hwf
        cases xs2 with
        | nil =>
          have hx : jsize x ≤ N := by simp only [jsizeL] at hsz; omega
          exact ihV x hx hwfx c (by simpa [serializeElems] using hc)
        | cons y ys =>
          have hx : jsize x ≤ N := by simp only [jsizeL] at hsz; omega
          have hy : jsizeL (y :: ys) ≤ N := by
            simp only [jsizeL] at hsz ⊢; omega
          simp only [serializeElems, List.mem_append, List.mem_cons] at hc
          rcases hc with hc | rfl | hc
          · exact ihV x hx hwfx c hc
          · decide
          · exact ihE (y :: ys) hy hwf2 c hc
    · intro kvs hsz hwf c hc
      cases kvs with
      | nil => simp [serializeMembers] at hc
      | cons p kvs2 =>
        obtain ⟨k, v⟩ := p
        obtain ⟨hk, hwfv, hwfm2⟩ := wfM_cons hwf
        cases kvs2 with
        | nil =>
          have hv : jsize v ≤ N := by simp only [jsizeM] at hsz; omega
          simp only [serializeMembers, List.mem_cons, List.mem_append,
            List.not_mem_nil, or_false] at hc
          rcases hc with (rfl | hc) | rfl | rfl | hc
          · decide
          · have := wfChar_lt128 (hk c hc); omega
          · decide
          · decide
          · exact ihV v hv hwfv c hc
        | cons p2 kvs3 =>
          obtain ⟨k2, v2⟩ := p2
          have hv : jsize v ≤ N := by simp only [jsizeM] at hsz; omega
          have hm : jsizeM ((k2, v2) :: kvs3) ≤ N := by
            simp only [jsizeM] at hsz ⊢; omega
          simp only [serializeMembers, List.mem_cons, List.mem_append,
            List.not_mem_nil, or_false] at hc
          rcases hc with ((rfl | hc) | rfl | rfl | hc) | rfl | hc
          · decide
          · have := wfChar_lt128 (hk c hc); omega
          · decide
          · decide
          · exact ihV v hv hwfv c hc
          · decide
          · exact ihM ((k2, v2) :: kvs3) hm hwfm2 c hc

theorem serialize_ascii (v : Json) (h : wfJ v = true) :
    ∀ c ∈ serializeJson v, c.toNat < 256 :=
  (serialize_ascii_aux (jsize v)).1 v le_rfl h

theorem map_ofNat_toNat (l : List Char) : (l.map Char.toNat).map Char.ofNat = l := by
  simp [List.map_map, Function.comp_def, Char.ofNat_toNat]

/-! ### `decodeJWT` (src/helper.go): split the token on dots, require exactly
three segments, base64url-decode the middle segment, parse it as JSON, and
return the claims object.  The error messages are the ones the Go code
creates with `errors.New`. -/

abbrev Claims := List (List Char × Json)

def decodeJWT (token : String) : Except String Claims :=
  match splitOnChar '.' token.toList with
  | [_, p, _] =>
    match b64decode p with
    | .error _ => .error "failed to decode token payload"
    | .ok bytes =>
      match jsonParse (bytes.map Char.ofNat) with
      | .ok (.obj kvs) => .ok kvs
      | .ok .null => .ok []
      | _ => .error "failed to decode JSON payload"
  | _ => .error "invalid token: must have 3 parts"

/-- Claim lookup with Go map semantics: on duplicate keys,
`encoding/json` keeps the last occurrence. -/
def lookupClaim (k : List Char) (kvs : Claims) : Option Json :=
  (kvs.reverse.find? (fun p => p.1 == k)).map (fun p => p.2)

/-! ### The token and error structures (src/helper.go, src/oauth.go) -/

structure ErrItem where
  key : String
  path : String
  message : String
deriving DecidableEq

structure BadRequest where
  name : String
  message : String
  error : String
  errorDescription : String
  errors : Option (List ErrItem)
deriving DecidableEq

def emptyBadRequest : BadRequest := ⟨"", "", "", "", none⟩

structure Token where
  accessToken : String
  tokenType : String
  expiresIn : Int
  scope : String
  error : Option String
  badRequest : BadRequest
deriving DecidableEq

def emptyToken : Token := ⟨"", "", 0, "", none, emptyBadRequest⟩

/-- A `Token` carrying only an `Error`, as `Token{Error: err}` in Go. -/
def errToken (e : String) : Token := ⟨"", "", 0, "", some e, emptyBadRequest⟩

/-- `authorization` (src/oauth.go): `fmt.Sprintf("%s %s", type, value)`. -/
def authorization (auth : Token) : String :=
  auth.tokenType ++ " " ++ auth.accessToken

/-- The segment `strings.Split(authorization(), " ")[1]` that `checkToken`
feeds to `decodeJWT`.  The formatted value always contains a space, so the
index is in bounds; the default is never used. -/
def jwtPart (auth : Token) : List Char :=
  (splitOnChar ' ' (authorization auth).toList).getD 1 []

/-- Result of `checkToken` (src/oauth.go): `*Authorization` when the cached
token is fresh, a `Token{Error: err}` pointer when claims decoding fails,
and `nil` otherwise. -/
inductive CheckResult where
  | freshTok : Token → CheckResult
  | errTok : String → CheckResult
  | stale : CheckResult
deriving DecidableEq

/-- `checkToken` (src/oauth.go).  `now` is the current instant in
nanoseconds since the epoch; `time.Unix(int64(exp), 0)` is `exp` seconds,
and `.After(now.Add(30*time.Second))` is a strict comparison. -/
def checkToken (auth : Token) (now : Int) : CheckResult :=
  if auth.accessToken ≠ "" then
    match decodeJWT (String.mk (jwtPart auth)) with
    | .error e => .errTok e
    | .ok claims =>
      match lookupClaim "exp".toList claims with
      | some (.num e) =>
        if e * 1000000000 > now + 30 * 1000000000 then .freshTok auth else .stale
      | _ => .stale
  else .stale

def isFreshResult : CheckResult → Bool
  | .freshTok _ => true
  | _ => false

/-! ### `json.Unmarshal` of a response body into a `Token`, with Go's
struct-tag field mapping and zero-value defaults for absent fields. -/

def getStrField (kvs : Claims) (k : String) : Except String String :=
  match lookupClaim k.toList kvs with
  | none => .ok ""
  | some (.str s) => .ok (String.mk s)
  | some .null => .ok ""
  | some _ => .error "json: cannot unmarshal value into string field"

def getIntField (kvs : Claims) (k : String) : Except String Int :=
  match lookupClaim k.toList kvs with
  | none => .ok 0
  | some (.num n) => .ok n
  | some .null => .ok 0
  | some _ => .error "json: cannot unmarshal value into int field"

def decodeErrItem (v : Json) : Except String ErrItem :=
  match v with
  | .obj kvs => do
    let k ← getStrField kvs "key"
    let p ← getStrField kvs "path"
    let m ← getStrField kvs "message"
    .ok ⟨k, p, m⟩
  | _ => .error "json: cannot unmarshal value into Error"

def getErrsField (kvs : Claims) : Except String (Option (List ErrItem)) :=
  match lookupClaim "errors".toList kvs with
  | none => .ok none
  | some .null => .ok none
  | some (.arr xs) => (xs.mapM decodeErrItem).map some
  | some _ => .error "json: cannot unmarshal value into errors field"

def unmarshalToken (body : String) : Except String Token :=
  match jsonParse body.toList with
  | .error e => .error e
  | .ok .null => .ok emptyToken
  | .ok (.obj kvs) => do
    let a1 ← getStrField kvs "access_token"
    let a2 ← getStrField kvs "token_type"
    let a3 ← getIntField kvs "expires_in"
    let a4 ← getStrField kvs "scope"
    let b1 ← getStrField kvs "name"
    let b2 ← getStrField kvs "message"
    let b3 ← getStrField kvs "error"
    let b4 ← getStrField kvs "error_description"
    let b5 ← getErrsField kvs
    .ok ⟨a1, a2, a3, a4, none, ⟨b1, b2, b3, b4, b5⟩⟩
  | .ok _ => .error "json: cannot unmarshal value into Token"

/-! ### Credentials and `NewClient` (the configuration file of the repo).
`validation.Required` of ozzo-validation rejects exactly the zero value of
each validated field (empty string, integer zero); `Sandbox` is not
validated.  The file system is an oracle `fs : String → Bool` standing for
`os.Stat` existence, and the process-wide `Client`/`EFI_BASE_URL` pair is
an explicit `ConfigState`. -/

structure Credentials where
  clientID : String
  clientSecret : String
  timeout : Int
  sandbox : Bool
  ca : String
  key : String
deriving DecidableEq

def EFI_PRODUCTION_URL : String := "https://pix.api.efipay.com.br"

def EFI_STAGING_URL : String := "https://pix-h.api.efipay.com.br"

def validateCredentials (c : Credentials) : Except String Unit :=
  if c.clientID = "" then .error "ClientID: cannot be blank."
  else if c.clientSecret = "" then .error "ClientSecret: cannot be blank."
  else if c.timeout = 0 then .error "Timeout: cannot be blank."
  else if c.ca = "" then .error "CA: cannot be blank."
  else if c.key = "" then .error "Key: cannot be blank."
  else .ok ()

def fileExists (fs : String → Bool) (name : String) : Except String Unit :=
  if fs name then .ok () else .error ("file " ++ name ++ " not found")

structure ConfigState where
  client : Option Credentials
  baseURL : String
deriving DecidableEq

def NewClient (c : Credentials) (fs : String → Bool) (st : ConfigState) :
    Except String Unit × ConfigState :=
  match validateCredentials c with
  | .error e => (.error e, st)
  | .ok _ =>
    match fileExists fs c.ca with
    | .error e => (.error e, st)
    | .ok _ =>
      match fileExists fs c.key with
      | .error e => (.error e, st)
      | .ok _ =>
        (.ok (), { client := some c,
                   baseURL := if c.sandbox then EFI_STAGING_URL else EFI_PRODUCTION_URL })

/-! ### `OAuth` (the token-exchange function of the repo).  The outcome of
each external step is an input: certificate loading, URL join, request
construction, and the network call (an `HttpResult` holds the response
status and the outcome of reading its body).  `OAuth` returns the `Token`
handed to the caller together with the new value of the process-wide
cached token `Authorization`. -/

structure HttpResult where
  status : Nat
  bodyResult : Except String String

structure OAuthEnv where
  certLoad : Except String Unit
  joinPath : Except String String
  newRequest : Except String Unit
  doRequest : Except String HttpResult

def OAuth (client : Option Credentials) (auth : Token) (now : Int)
    (env : OAuthEnv) : Token × Token :=
  match client with
  | none => (errToken "client not defined", auth)
  | some _ =>
    match checkToken auth now with
    | .freshTok t => (t, auth)
    | .errTok e => (errToken e, auth)
    | .stale =>
      match env.certLoad with
      | .error e => (errToken ("failed to load certificates: " ++ e), auth)
      | .ok _ =>
        match env.joinPath with
        | .error e => (errToken ("failed to construct URL: " ++ e), auth)
        | .ok _ =>
          match env.newRequest with
          | .error e => (errToken e, auth)
          | .ok _ =>
            match env.doRequest with
            | .error e => (errToken e, auth)
            | .ok res =>
              match res.bodyResult with
              | .error e => (errToken e, auth)
              | .ok body =>
                match unmarshalToken body with
                | .error e => (errToken e, auth)
                | .ok tok =>
                  if res.status ≠ 200 then
                    (errToken ("bad request: " ++ body), auth)
                  else (tok, tok)

/-! ### `Webhook.Delete` (the pix webhook file of the repo).  Only the
response handling is at issue: the unmarshal error is swallowed when the
status is 204 No Content. -/

def unmarshalWebhook (body : String) : Except String Unit :=
  match jsonParse body.toList with
  | .error e => .error e
  | .ok (.obj _) => .ok ()
  | .ok .null => .ok ()
  | .ok _ => .error "json: cannot unmarshal value into Webhook"

structure DeleteEnv where
  oauthError : Option String
  certLoad : Except String Unit
  joinPath : Except String String
  newRequest : Except String Unit
  doRequest : Except String HttpResult

def webhookDelete (env : DeleteEnv) : Except String Unit :=
  match env.oauthError with
  | some e => .error e
  | none =>
    match env.certLoad with
    | .error e => .error e
    | .ok _ =>
      match env.joinPath with
      | .error e => .error e
      | .ok _ =>
        match env.newRequest with
        | .error e => .error e
        | .ok _ =>
          match env.doRequest with
          | .error e => .error e
          | .ok res =>
            match res.bodyResult with
            | .error e => .error e
            | .ok body =>
              match unmarshalWebhook body with
              | .error e =>
                if res.status = 204 then .ok () else .error e
              | .ok _ =>
                if res.status = 204 then .ok () else .error "bad request"

/-! ### Bridging lemmas for `checkToken` -/

theorem mk_toList (s : String) : String.mk s.toList = s := rfl

theorem jwtPart_eq (auth : Token) (h1 : ' ' ∉ auth.tokenType.toList)
    (h2 : ' ' ∉ auth.accessToken.toList) :
    jwtPart auth = auth.accessToken.toList := by
  unfold jwtPart authorization
  have hsplit : (auth.tokenType ++ " " ++ auth.accessToken).toList
      = auth.tokenType.toList ++ ' ' :: auth.accessToken.toList := by
    simp [String.toList]
  rw [hsplit, splitOnChar_append _ _ _ h1, splitOnChar_nosep _ _ h2]
  rfl

theorem checkToken_decode_arg (auth : Token) (h1 : ' ' ∉ auth.tokenType.toList)
    (h2 : ' ' ∉ auth.accessToken.toList) :
    String.mk (jwtPart auth) = auth.accessToken := by
  rw [jwtPart_eq auth h1 h2, mk_toList]

/-! ### Claim C1 -/

/-- C1: for every cached token and every current time, `checkToken` treats
the token as fresh if and only if the token value is non-empty and the
expiry timestamp decoded from the token is strictly after the current time
plus 30 seconds. -/
theorem C1_token_freshness (auth : Token) (now : Int)
    (h1 : ' ' ∉ auth.tokenType.toList) (h2 : ' ' ∉ auth.accessToken.toList) :
    isFreshResult (checkToken auth now) = true ↔
      (auth.accessToken ≠ "" ∧ ∃ kvs e, decodeJWT auth.accessToken = .ok kvs ∧
        lookupClaim "exp".toList kvs = some (.num e) ∧
        e * 1000000000 > now + 30 * 1000000000) := by
  unfold checkToken
  rw [checkToken_decode_arg auth h1 h2]
  by_cases hne : auth.accessToken ≠ ""
  · rw [if_pos hne]
    cases hdec : decodeJWT auth.accessToken with
    | error e =>
      simp only [isFreshResult, Bool.false_eq_true, false_iff, not_and]
      rintro _ ⟨kvs, e2, hk, _⟩
      cases hk
    | ok claims =>
      dsimp only
      cases hlk : lookupClaim "exp".toList claims with
      | none =>
        simp only [isFreshResult, Bool.false_eq_true, false_iff, not_and]
        rintro _ ⟨kvs, e2, hk, hl, _⟩
        cases hk
        rw [hlk] at hl
        cases hl
      | some j =>
        cases j with
        | num e =>
          dsimp only
          by_cases hcmp : e * 1000000000 > now + 30 * 1000000000
          · rw [if_pos hcmp]
            simp only [isFreshResult, true_iff]
            exact ⟨hne, claims, e, rfl, hlk, hcmp⟩
          · rw [if_neg hcmp]
            simp only [isFreshResult, Bool.false_eq_true, false_iff, not_and]
            rintro _ ⟨kvs, e2, hk, hl, hc⟩
            cases hk
            rw [hlk] at hl
            simp only [Option.some.injEq, Json.num.injEq] at hl
            subst hl
            exact hcmp hc
        | null =>
          simp only [isFreshResult, Bool.false_eq_true, false_iff, not_and]
          rintro _ ⟨kvs, e2, hk, hl, _⟩
          cases hk
          rw [hlk] at hl
          simp at hl
        | bool b =>
          simp only [isFreshResult, Bool.false_eq_true, false_iff, not_and]
          rintro _ ⟨kvs, e2, hk, hl, _⟩
          cases hk
          rw [hlk] at hl
          simp at hl
        | str s =>
          simp only [isFreshResult, Bool.false_eq_true, false_iff, not_and]
          rintro _ ⟨kvs, e2, hk, hl, _⟩
          cases hk
          rw [hlk] at hl
          simp at hl
        | arr xs =>
          simp only [isFreshResult, Bool.false_eq_true, false_iff, not_and]
          rintro _ ⟨kvs, e2, hk, hl, _⟩
          cases hk
          rw [hlk] at hl
          simp at hl
        | obj kvs2 =>
          simp only [isFreshResult, Bool.false_eq_true, false_iff, not_and]
          rintro _ ⟨kvs, e2, hk, hl, _⟩
          cases hk
          rw [hlk] at hl
          simp at hl
  · rw [if_neg hne]
    simp only [isFreshResult, Bool.false_eq_true, false_iff, not_and]
    intro h
    exact absurd h hne

/-- A three-segment token whose payload encodes the claims object with
`exp = 1700000031`. -/
def exTok1 : String :=
  String.mk ('h' :: '.' ::
    b64encode ((serializeJson (.obj [("exp".toList, .num 1700000031)])).map Char.toNat)
    ++ '.' :: ['s'])

theorem C1_token_freshness_witness :
    isFreshResult (checkToken ⟨exTok1, "Bearer", 0, "", none, emptyBadRequest⟩
      1700000000000000000) = true :=
  (C1_token_freshness ⟨exTok1, "Bearer", 0, "", none, emptyBadRequest⟩
      1700000000000000000 (by decide) (by decide)).mpr
    ⟨by decide, [("exp".toList, .num 1700000031)], 1700000031, by rfl, by rfl, by decide⟩

/-! ### Claim C10 -/

/-- C10: a cached token with a non-empty value whose payload decodes to a
JSON object without a numeric `exp` claim is silently treated as not fresh
(`checkToken` returns nil, no error), so the next authorization proceeds
to a full exchange. -/
theorem C10_missing_exp_stale (auth : Token) (now : Int) (kvs : Claims)
    (h1 : ' ' ∉ auth.tokenType.toList) (h2 : ' ' ∉ auth.accessToken.toList)
    (hne : auth.accessToken ≠ "")
    (hdec : decodeJWT auth.accessToken = .ok kvs)
    (hexp : ∀ e : Int, lookupClaim "exp".toList kvs ≠ some (.num e)) :
    checkToken auth now = .stale := by
  unfold checkToken
  rw [checkToken_decode_arg auth h1 h2, if_pos hne, hdec]
  dsimp only
  cases hlk : lookupClaim "exp".toList kvs with
  | none => rfl
  | some j =>
    cases j with
    | num e => exact absurd hlk (hexp e)
    | null => rfl
    | bool b => rfl
    | str s => rfl
    | arr xs => rfl
    | obj kvs2 => rfl

/-- A three-segment token whose payload encodes `\x7b"foo": 1\x7d`,
an object with no `exp` claim. -/
def exTok2 : String :=
  String.mk ('h' :: '.' ::
    b64encode ((serializeJson (.obj [("foo".toList, .num 1)])).map Char.toNat)
    ++ '.' :: ['s'])

theorem C10_missing_exp_stale_witness :
    checkToken ⟨exTok2, "Bearer", 0, "", none, emptyBadRequest⟩ 0 = .stale :=
  C10_missing_exp_stale ⟨exTok2, "Bearer", 0, "", none, emptyBadRequest⟩ 0
    [("foo".toList, .num 1)] (by decide) (by decide) (by decide) (by rfl)
    (fun e h => Option.noConfusion h)

/-! ### Claim C6 -/

/-- C6: a non-empty cached token whose claims fail to decode makes `OAuth`
surface that decode failure to the caller as an error: the returned token
carries the decode error, the cached token is untouched, and no exchange
happens (the result does not depend on the environment). -/
theorem C6_decode_error_surfaced (cl : Credentials) (auth : Token) (now : Int)
    (env : OAuthEnv) (e : String)
    (hne : auth.accessToken ≠ "")
    (hdec : decodeJWT (String.mk (jwtPart auth)) = .error e) :
    OAuth (some cl) auth now env = (errToken e, auth) := by
  unfold OAuth checkToken
  rw [if_pos hne, hdec]

def cEx : Credentials := ⟨"client-id", "client-secret", 30, true, "ca.pem", "key.pem"⟩

def envEx : OAuthEnv := ⟨.ok (), .ok "https://pix-h.api.efipay.com.br/oauth/token", .ok (), .error "dial tcp: timeout"⟩

theorem C6_decode_error_surfaced_witness :
    OAuth (some cEx) ⟨"abc", "Bearer", 0, "", none, emptyBadRequest⟩ 0 envEx
      = (errToken "invalid token: must have 3 parts",
         ⟨"abc", "Bearer", 0, "", none, emptyBadRequest⟩) :=
  C6_decode_error_surfaced cEx ⟨"abc", "Bearer", 0, "", none, emptyBadRequest⟩ 0 envEx
    "invalid token: must have 3 parts" (by decide) (by rfl)

/-! ### Claim C5 -/

/-- C5: when the cached token is fresh (non-empty value, decoded expiry
strictly after now + 30 s), `OAuth` returns the cached token, leaves the
cache unchanged, and touches none of the external steps (the environment
is arbitrary and absent from the result); the formatted authorization
value is exactly the token type, one space, and the token value. -/
theorem C5_fresh_cached_token (cl : Credentials) (auth : Token) (now : Int)
    (env : OAuthEnv) (kvs : Claims) (e : Int)
    (h1 : ' ' ∉ auth.tokenType.toList) (h2 : ' ' ∉ auth.accessToken.toList)
    (hne : auth.accessToken ≠ "")
    (hdec : decodeJWT auth.accessToken = .ok kvs)
    (hexp : lookupClaim "exp".toList kvs = some (.num e))
    (hcmp : e * 1000000000 > now + 30 * 1000000000) :
    OAuth (some cl) auth now env = (auth, auth) ∧
      authorization auth = auth.tokenType ++ " " ++ auth.accessToken := by
  refine ⟨?_, rfl⟩
  unfold OAuth checkToken
  rw [checkToken_decode_arg auth h1 h2, if_pos hne, hdec]
  dsimp only
  rw [hexp]
  dsimp only
  rw [if_pos hcmp]

theorem C5_fresh_cached_token_witness :
    OAuth (some cEx) ⟨exTok1, "Bearer", 3600, "cob.read", none, emptyBadRequest⟩
        1700000000000000000 envEx
      = (⟨exTok1, "Bearer", 3600, "cob.read", none, emptyBadRequest⟩,
         ⟨exTok1, "Bearer", 3600, "cob.read", none, emptyBadRequest⟩) ∧
    authorization ⟨exTok1, "Bearer", 3600, "cob.read", none, emptyBadRequest⟩
      = "Bearer" ++ " " ++ exTok1 :=
  C5_fresh_cached_token cEx ⟨exTok1, "Bearer", 3600, "cob.read", none, emptyBadRequest⟩
    1700000000000000000 envEx [("exp".toList, .num 1700000031)] 1700000031
    (by decide) (by decide) (by decide) (by rfl) (by rfl) (by decide)

/-! ### Claim C3 -/

theorem unmarshalToken_error_none (body : String) (tok : Token)
    (h : unmarshalToken body = .ok tok) : tok.error = none := by
  unfold unmarshalToken at h
  split at h
  · cases h
  · cases h
    rfl
  · simp only [bind, Except.bind] at h
    split at h
    · cases h
    · split at h
      · cases h
      · split at h
        · cases h
        · split at h
          · cases h
          · split at h
            · cases h
            · split at h
              · cases h
              · split at h
                · cases h
                · split at h
                  · cases h
                  · split at h
                    · cases h
                    · cases h
                      rfl
  · cases h

/-- C3: the process-wide cached token is replaced only when the exchange
completes with HTTP 200 and a parseable body; on every failure path the
cache keeps exactly its prior value.  First conjunct: any call whose
result carries an error leaves the cache untouched.  Second conjunct: if
the cache changed, the network step returned a response whose status was
200 and whose body parsed into the new cached token. -/
theorem C3_cache_replaced_only_on_200 (client : Option Credentials) (auth : Token)
    (now : Int) (env : OAuthEnv) :
    ((OAuth client auth now env).1.error.isSome = true →
      (OAuth client auth now env).2 = auth) ∧
    ((OAuth client auth now env).2 ≠ auth →
      ∃ res body, env.doRequest = .ok res ∧ res.bodyResult = .ok body ∧
        res.status = 200 ∧
        unmarshalToken body = .ok (OAuth client auth now env).2) := by
  obtain ⟨cert, jp, nr, doR⟩ := env
  unfold OAuth
  cases client with
  | none => exact ⟨fun _ => rfl, fun h => absurd rfl h⟩
  | some cl =>
    cases checkToken auth now with
    | freshTok t => exact ⟨fun _ => rfl, fun h => absurd rfl h⟩
    | errTok e => exact ⟨fun _ => rfl, fun h => absurd rfl h⟩
    | stale =>
      cases cert with
      | error e => exact ⟨fun _ => rfl, fun h => absurd rfl h⟩
      | ok u =>
        cases jp with
        | error e => exact ⟨fun _ => rfl, fun h => absurd rfl h⟩
        | ok p =>
          cases nr with
          | error e => exact ⟨fun _ => rfl, fun h => absurd rfl h⟩
          | ok u2 =>
            cases doR with
            | error e => exact ⟨fun _ => rfl, fun h => absurd rfl h⟩
            | ok res =>
              obtain ⟨status, bodyR⟩ := res
              cases bodyR with
              | error e => exact ⟨fun _ => rfl, fun h => absurd rfl h⟩
              | ok body =>
                dsimp only
                cases humt : unmarshalToken body with
                | error e => exact ⟨fun _ => rfl, fun h => absurd rfl h⟩
                | ok tok =>
                  dsimp only
                  by_cases hst : status ≠ 200
                  · rw [if_pos hst]
                    exact ⟨fun _ => rfl, fun h => absurd rfl h⟩
                  · rw [if_neg hst]
                    refine ⟨?_, ?_⟩
                    · intro herr
                      rw [unmarshalToken_error_none body tok humt] at herr
                      cases herr
                    · intro _
                      exact ⟨⟨status, .ok body⟩, body, rfl, rfl, by dsimp only; omega, humt⟩

theorem C3_cache_replaced_only_on_200_witness :
    (OAuth (some cEx) emptyToken 0 envEx).2 = emptyToken :=
  (C3_cache_replaced_only_on_200 (some cEx) emptyToken 0 envEx).1 (by rfl)

/-! ### Claim C2 -/

/-- The exchange environment of the C2 scenario: every step up to the
network call succeeds and the provider answers HTTP 400 with body
`\x7b"error":"invalid_client"\x7d`. -/
def envC2 : OAuthEnv :=
  ⟨.ok (), .ok "https://pix-h.api.efipay.com.br/oauth/token", .ok (),
   .ok ⟨400, .ok "\x7b\"error\":\"invalid_client\"\x7d"⟩⟩

/-- C2 counterexample: on HTTP 400 with body `\x7b"error":"invalid_client"\x7d`
the claim says the returned failure carries the Structured API Error
fields decoded from the body.  The body does decode with the structured
`error` field equal to `invalid_client` (third conjunct), but the token
handed to the caller has an empty structured error field (first conjunct):
the code builds a fresh `Token` that carries only the raw body inside the
error message (second conjunct).  The cache stays unchanged (fourth). -/
theorem C2_counterexample :
    (OAuth (some cEx) emptyToken 0 envC2).1.badRequest.error = "" ∧
    (OAuth (some cEx) emptyToken 0 envC2).1.error
      = some ("bad request: " ++ "\x7b\"error\":\"invalid_client\"\x7d") ∧
    unmarshalToken "\x7b\"error\":\"invalid_client\"\x7d"
      = .ok { emptyToken with
              badRequest := { emptyBadRequest with error := "invalid_client" } } ∧
    (OAuth (some cEx) emptyToken 0 envC2).2 = emptyToken :=
  ⟨rfl, rfl, rfl, rfl⟩

/-- C2 (amended): for every token-exchange response with a JSON-parseable
body and an HTTP status other than 200, the exchange returns a failure
token whose error message wraps the raw body text; the Structured API
Error fields decoded from the body are discarded (the returned token's
structured fields are all empty), and the cached token is unchanged. -/
theorem C2_non200_wraps_raw_body (cl : Credentials) (auth : Token) (now : Int)
    (env : OAuthEnv) (res : HttpResult) (body : String) (tok : Token) (p : String)
    (hstale : checkToken auth now = .stale)
    (hc : env.certLoad = .ok ())
    (hj : env.joinPath = .ok p)
    (hn : env.newRequest = .ok ())
    (hd : env.doRequest = .ok res)
    (hb : res.bodyResult = .ok body)
    (hu : unmarshalToken body = .ok tok)
    (hs : res.status ≠ 200) :
    OAuth (some cl) auth now env = (errToken ("bad request: " ++ body), auth) := by
  unfold OAuth
  rw [hstale]
  dsimp only
  rw [hc]
  dsimp only
  rw [hj]
  dsimp only
  rw [hn]
  dsimp only
  rw [hd]
  dsimp only
  rw [hb]
  dsimp only
  rw [hu]
  dsimp only
  rw [if_pos hs]

theorem C2_non200_wraps_raw_body_witness :
    OAuth (some cEx) emptyToken 0 envC2
      = (errToken ("bad request: " ++ "\x7b\"error\":\"invalid_client\"\x7d"),
         emptyToken) :=
  C2_non200_wraps_raw_body cEx emptyToken 0 envC2
    ⟨400, .ok "\x7b\"error\":\"invalid_client\"\x7d"⟩
    "\x7b\"error\":\"invalid_client\"\x7d"
    { emptyToken with badRequest := { emptyBadRequest with error := "invalid_client" } }
    "https://pix-h.api.efipay.com.br/oauth/token"
    (by rfl) (by rfl) (by rfl) (by rfl) (by rfl) (by rfl) (by rfl) (by decide)

/-! ### Claim C4 -/

/-- C4: (i) for every well-formed JSON claims object encoded with
URL-safe unpadded base64 as the middle segment of a three-part dot-joined
token, `decodeJWT` recovers exactly that object; (ii) for every string
whose dot-separated segment count is not exactly three, `decodeJWT` fails
with the malformed-token error. -/
theorem C4_decode_round_trip :
    (∀ (header sig : List Char) (kvs : Claims),
      '.' ∉ header → '.' ∉ sig → wfJ (.obj kvs) = true →
      decodeJWT (String.mk (header ++ '.' ::
        (b64encode ((serializeJson (.obj kvs)).map Char.toNat) ++ '.' :: sig)))
        = .ok kvs) ∧
    (∀ s : String, (splitOnChar '.' s.toList).length ≠ 3 →
      decodeJWT s = .error "invalid token: must have 3 parts") := by
  constructor
  · intro header sig kvs hh hs hwf
    have hb : ∀ b ∈ (serializeJson (.obj kvs)).map Char.toNat, b < 256 := by
      intro b hbm
      obtain ⟨c, hc, rfl⟩ := List.mem_map.mp hbm
      exact serialize_ascii _ hwf c hc
    have hnd : '.' ∉ b64encode ((serializeJson (.obj kvs)).map Char.toNat) :=
      b64encode_no_dot _ hb
    unfold decodeJWT
    have htl : (String.mk (header ++ '.' ::
        (b64encode ((serializeJson (.obj kvs)).map Char.toNat) ++ '.' :: sig))).toList
        = header ++ '.' ::
          (b64encode ((serializeJson (.obj kvs)).map Char.toNat) ++ '.' :: sig) := rfl
    rw [htl, splitOnChar_append _ _ _ hh, splitOnChar_append _ _ _ hnd,
        splitOnChar_nosep _ _ hs]
    dsimp only
    rw [b64decode_encode _ hb]
    dsimp only
    rw [map_ofNat_toNat, jsonParse_serializeJson _ hwf]
  · intro s hlen
    unfold decodeJWT
    rcases hsp : splitOnChar '.' s.toList with _ | ⟨a, _ | ⟨b, _ | ⟨c, _ | ⟨d, t⟩⟩⟩⟩
    · rfl
    · rfl
    · rfl
    · exact absurd (by rw [hsp]; rfl) hlen
    · rfl

theorem C4_decode_round_trip_witness :
    decodeJWT (String.mk ("h".toList ++ '.' ::
      (b64encode ((serializeJson (.obj [("exp".toList, .num 1700000000)])).map Char.toNat)
        ++ '.' :: "s".toList))) = .ok [("exp".toList, .num 1700000000)] ∧
    decodeJWT "a.b" = .error "invalid token: must have 3 parts" ∧
    decodeJWT "a.b.c.d" = .error "invalid token: must have 3 parts" ∧
    lookupClaim "exp".toList [("exp".toList, .num 1700000000)]
      = some (.num 1700000000) :=
  ⟨C4_decode_round_trip.1 "h".toList "s".toList [("exp".toList, .num 1700000000)]
      (by decide) (by decide) (by decide),
   C4_decode_round_trip.2 "a.b" (by decide),
   C4_decode_round_trip.2 "a.b.c.d" (by decide),
   by rfl⟩

/-! ### Claim C7 -/

/-- A credential set whose timeout is the negative integer -1 and whose
other validated fields are non-empty. -/
def credNegTimeout : Credentials := ⟨"client-id", "client-secret", -1, false, "ca.pem", "key.pem"⟩

/-- C7 counterexample: the claim says configuration succeeds only when the
timeout is a positive integer, a zero or negative timeout being rejected.
With timeout -1 (and every file present) `NewClient` succeeds: the
`Required` validation rejects only the zero value of an integer field. -/
theorem C7_counterexample :
    (NewClient credNegTimeout (fun _ => true) ⟨none, ""⟩).1 = .ok () ∧
    credNegTimeout.timeout < 0 :=
  ⟨rfl, by decide⟩

/-- C7 (amended): configuration fails exactly when one of client id,
client secret, timeout, certificate path, key path is its zero value
(empty string, integer zero) or one of the two files does not exist; a
non-zero timeout of either sign passes validation. -/
theorem C7_validation_zero_value (c : Credentials) (fs : String → Bool)
    (st : ConfigState) :
    (NewClient c fs st).1 = .ok () ↔
      (c.clientID ≠ "" ∧ c.clientSecret ≠ "" ∧ c.timeout ≠ 0 ∧ c.ca ≠ "" ∧
        c.key ≠ "" ∧ fs c.ca = true ∧ fs c.key = true) := by
  unfold NewClient validateCredentials fileExists
  by_cases h1 : c.clientID = ""
  · simp [h1]
  · by_cases h2 : c.clientSecret = ""
    · simp [h1, h2]
    · by_cases h3 : c.timeout = 0
      · simp [h1, h2, h3]
      · by_cases h4 : c.ca = ""
        · simp [h1, h2, h3, h4]
        · by_cases h5 : c.key = ""
          · simp [h1, h2, h3, h4, h5]
          · by_cases h6 : fs c.ca = true
            · by_cases h7 : fs c.key = true
              · simp [h1, h2, h3, h4, h5, h6, h7]
              · simp [h1, h2, h3, h4, h5, h6, h7]
            · simp [h1, h2, h3, h4, h5, h6]

/-! ### Claim C9 -/

/-- C9: every failing configuration attempt leaves the process-wide
active credential set and the derived base URL exactly as they were. -/
theorem C9_failed_config_preserves_state (c : Credentials) (fs : String → Bool)
    (st : ConfigState) (h : (NewClient c fs st).1 ≠ .ok ()) :
    (NewClient c fs st).2 = st := by
  unfold NewClient at h ⊢
  cases hv : validateCredentials c with
  | error e => rfl
  | ok u =>
    dsimp only
    cases hca : fileExists fs c.ca with
    | error e => rfl
    | ok u2 =>
      dsimp only
      cases hk : fileExists fs c.key with
      | error e => rfl
      | ok u3 =>
        rw [hv, hca, hk] at h
        exact absurd rfl h

theorem C9_failed_config_preserves_state_witness :
    (NewClient ⟨"", "client-secret", 30, false, "ca.pem", "key.pem"⟩
      (fun _ => true) ⟨some cEx, EFI_STAGING_URL⟩).2 = ⟨some cEx, EFI_STAGING_URL⟩ :=
  C9_failed_config_preserves_state ⟨"", "client-secret", 30, false, "ca.pem", "key.pem"⟩
    (fun _ => true) ⟨some cEx, EFI_STAGING_URL⟩ (fun h => Except.noConfusion h)

/-! ### Claim C8 -/

/-- C8: webhook deletion succeeds on HTTP 204 even when the body fails to
parse (the parse error is swallowed); on any other status it fails with
the body's parse error when parsing fails, and with the generic failure
otherwise. -/
theorem C8_delete_status_handling (env : DeleteEnv) (res : HttpResult)
    (body : String) (p : String)
    (h0 : env.oauthError = none)
    (h1 : env.certLoad = .ok ())
    (h2 : env.joinPath = .ok p)
    (h3 : env.newRequest = .ok ())
    (h4 : env.doRequest = .ok res)
    (h5 : res.bodyResult = .ok body) :
    (res.status = 204 → webhookDelete env = .ok ()) ∧
    (res.status ≠ 204 → ∀ e, unmarshalWebhook body = .error e →
      webhookDelete env = .error e) ∧
    (res.status ≠ 204 → unmarshalWebhook body = .ok () →
      webhookDelete env = .error "bad request") := by
  refine ⟨?_, ?_, ?_⟩
  · intro hst
    unfold webhookDelete
    rw [h0]
    dsimp only
    rw [h1]
    dsimp only
    rw [h2]
    dsimp only
    rw [h3]
    dsimp only
    rw [h4]
    dsimp only
    rw [h5]
    dsimp only
    cases unmarshalWebhook body with
    | error e =>
      dsimp only
      rw [if_pos hst]
    | ok u =>
      dsimp only
      rw [if_pos hst]
  · intro hst e hum
    unfold webhookDelete
    rw [h0]
    dsimp only
    rw [h1]
    dsimp only
    rw [h2]
    dsimp only
    rw [h3]
    dsimp only
    rw [h4]
    dsimp only
    rw [h5]
    dsimp only
    rw [hum]
    dsimp only
    rw [if_neg hst]
  · intro hst hum
    unfold webhookDelete
    rw [h0]
    dsimp only
    rw [h1]
    dsimp only
    rw [h2]
    dsimp only
    rw [h3]
    dsimp only
    rw [h4]
    dsimp only
    rw [h5]
    dsimp only
    rw [hum]
    dsimp only
    rw [if_neg hst]

/-- A deletion whose provider answered 204 No Content with a body that is
not JSON at all. -/
def envC8 : DeleteEnv :=
  ⟨none, .ok (), .ok "https://pix-h.api.efipay.com.br/v2/webhook/key", .ok (),
   .ok ⟨204, .ok "not json"⟩⟩

theorem C8_delete_status_handling_witness :
    webhookDelete envC8 = .ok () ∧
    unmarshalWebhook "not json" = .error "invalid literal" :=
  ⟨(C8_delete_status_handling envC8 ⟨204, .ok "not json"⟩ "not json"
      "https://pix-h.api.efipay.com.br/v2/webhook/key"
      rfl rfl rfl rfl rfl rfl).1 rfl,
   by rfl⟩
